import Mathlib

/-!
# Verification of the `env` configuration library

A shallow embedding, in Lean 4, of the annotation-driven environment-variable
validation engine (Go package `env`): the declaration-tag grammar of
`tags.go`, the scalar coercers (`bool.go`, `ipv4.go`, the URL coercers), the
field walker `Validate`, the sequence coercion `validateAndParseSlice`, and
the binder `Assert` of `main.go`.

Modelling conventions:
* Go strings are Lean `String`s; character-level scanning mirrors Go's
  byte-level scanning (all behaviour-relevant inputs are ASCII, and an ASCII
  needle occurs byte-wise in UTF-8 text iff it occurs character-wise).
* Go `panic` is modelled as the `Except.error` branch of the embedded
  function; data-level errors keep their Go shape (`error` results become
  `Option String` values, `none` meaning the nil error).
* The process environment is an opaque total lookup `String → String`,
  exactly the contract of `os.Getenv` (unset variables read as `""`).
-/

deriving instance DecidableEq for Except

namespace GoEnv

/-! ## String utilities mirroring the Go standard library -/

/-- ASCII lower-casing of one character (`strings.ToLower` on the ASCII
range; every tag and type identifier in the library is ASCII). -/
def lowerChar (c : Char) : Char :=
  if c.toNat ≥ 65 && c.toNat ≤ 90 then Char.ofNat (c.toNat + 32) else c

/-- ASCII upper-casing of one character (`strings.ToUpper` on the ASCII
range). -/
def upperChar (c : Char) : Char :=
  if c.toNat ≥ 97 && c.toNat ≤ 122 then Char.ofNat (c.toNat - 32) else c

/-- `toLower` of `tags.go` (a thin wrapper around `strings.ToLower`). -/
def toLower (tag : String) : String :=
  String.mk (tag.data.map lowerChar)

/-- `strings.ToUpper`. -/
def goToUpper (s : String) : String :=
  String.mk (s.data.map upperChar)

/-- Does `needle` occur as a contiguous sublist of `hay`?
(`strings.Contains`.) -/
def containsSub (hay needle : List Char) : Bool :=
  match hay with
  | [] => needle.isEmpty
  | _ :: t => needle.isPrefixOf hay || containsSub t needle

/-- The white-space class of Go's `unicode.IsSpace`, used by
`strings.TrimSpace`. -/
def goIsSpace (c : Char) : Bool :=
  let n := c.toNat
  n == 32 || (n ≥ 9 && n ≤ 13) || n == 0x85 || n == 0xa0 ||
  n == 0x1680 || (n ≥ 0x2000 && n ≤ 0x200a) || n == 0x2028 || n == 0x2029 ||
  n == 0x202f || n == 0x205f || n == 0x3000

/-- `strings.TrimSpace`. -/
def trimSpace (s : String) : String :=
  String.mk (((s.data.dropWhile goIsSpace).reverse.dropWhile goIsSpace).reverse)

/-- `strings.Split` / `strings.SplitSeq` on a non-empty separator, as a scan
over the character list (the auxiliary of `goSplit`).  The scan is
structural on a fuel argument so that it computes by kernel reduction;
every step consumes at least one character, so a fuel equal to the input
length never runs out: exhaustion at fuel 0 is reached only with the empty
input, where `[l]` agrees with the empty-input branch. -/
def splitOnFuel (sep : List Char) : Nat → List Char → List (List Char)
  | 0, l => [l]
  | _ + 1, [] => [[]]
  | fuel + 1, c :: rest =>
    if sep.isPrefixOf (c :: rest) then
      [] :: splitOnFuel sep fuel (rest.drop (sep.length - 1))
    else
      match splitOnFuel sep fuel rest with
      | [] => [[c]]
      | h :: t => (c :: h) :: t

/-- `strings.Split(s, sep)`: splits around every (non-overlapping, leftmost)
occurrence of `sep`; an empty separator splits into individual characters
(Go splits after each UTF-8 rune). -/
def goSplit (s sep : String) : List String :=
  match sep.data with
  | [] => s.data.map (fun c => String.mk [c])
  | l => (splitOnFuel l s.data.length s.data).map String.mk

/-! ## The tag grammar (`tags.go`)

The four keyed clauses are recognised by the Go regular expressions
`default='(?P<Default>.*?)'`, `separator='(?P<Sep>.)'`,
`name='(?P<Name>.*?)'` and `values='(?P<Values>.*?)'` via
`FindAllStringSubmatch`.  `findAllQ` embeds `FindAllStringSubmatch` for the
first shape (literal key, then a non-greedy quoted group) and `findAllSep`
for the second (literal key, then exactly one quoted character); in both,
`.` does not match a newline, matches are leftmost and non-overlapping, and
scanning resumes after the closing quote of each match. -/

/-- One non-greedy capture `(.*?)'`: the characters up to the first
following single quote; a newline before it kills the match (Go `.`).
Returns the capture and the input remaining after the closing quote. -/
def captureToQuote : List Char → Option (List Char × List Char)
  | [] => none
  | c :: cs =>
    if c = '\x27' then some ([], cs)
    else if c = '\n' then none
    else
      match captureToQuote cs with
      | some (cap, rest) => some (c :: cap, rest)
      | none => none

/-- `FindAllStringSubmatch` of a pattern `key(.*?)'` (the literal `key` ends
with the opening quote): all non-overlapping leftmost matches' captures, in
order.  Structural on a fuel argument (each step consumes at least one
character, so a fuel equal to the input length never runs out). -/
def findAllQ (key : List Char) : Nat → List Char → List (List Char)
  | 0, _ => []
  | _ + 1, [] => []
  | fuel + 1, c :: cs =>
    if key.isPrefixOf (c :: cs) then
      match captureToQuote ((c :: cs).drop key.length) with
      | some (cap, rest) => cap :: findAllQ key fuel rest
      | none => findAllQ key fuel cs
    else findAllQ key fuel cs

/-- All captures of `key='(.*?)'` in a tag. -/
def matchesQ (key : List Char) (s : String) : List (List Char) :=
  findAllQ key s.data.length s.data

/-- One capture `(.)'`: exactly one non-newline character followed by the
closing quote. -/
def sepCapture : List Char → Option (Char × List Char)
  | c :: q :: rest =>
    if c ≠ '\n' && q = '\x27' then some (c, rest) else none
  | _ => none

/-- `FindAllStringSubmatch` of `separator='(.)'`: all non-overlapping
leftmost matches' single-character captures.  Structural on a fuel argument
exactly as `findAllQ`. -/
def findAllSep (key : List Char) : Nat → List Char → List Char
  | 0, _ => []
  | _ + 1, [] => []
  | fuel + 1, c :: cs =>
    if key.isPrefixOf (c :: cs) then
      match sepCapture ((c :: cs).drop key.length) with
      | some (cap, rest) => cap :: findAllSep key fuel rest
      | none => findAllSep key fuel cs
    else findAllSep key fuel cs

/-- All captures of `separator='(.)'` in a tag. -/
def matchesSep (key : List Char) (s : String) : List Char :=
  findAllSep key s.data.length s.data

def defaultKey : List Char := "default=\x27".data

def separatorKey : List Char := "separator=\x27".data

def nameKey : List Char := "name=\x27".data

def valuesKey : List Char := "values=\x27".data

/-- `defaultSeparator` of `tags.go`. -/
def defaultSeparator : String := " "

/-- `isOptional` of `tags.go`: case-insensitive substring test for
`optional`. -/
def isOptional (tag : String) : Bool :=
  containsSub (toLower tag).data "optional".data

/-- `hasDefault` of `tags.go`. -/
def hasDefault (tag : String) : Bool :=
  !(matchesQ defaultKey tag).isEmpty

/-- `getDefault` of `tags.go`: the capture of the first match (`m[0][1]`).
Unlike the other keyed clauses it never checks for duplicates; with no match
at all the Go code would panic on the index, but every call site guards it
with `hasDefault`, so the `[]` branch is unreachable there. -/
def getDefault (tag : String) : String :=
  String.mk ((matchesQ defaultKey tag).headD [])

/-- `getSeparator` of `tags.go`; `Except.error` models the Go panic on a
duplicated `separator` clause. -/
def getSeparator (tag : String) : Except String String :=
  match matchesSep separatorKey tag with
  | [] => .ok defaultSeparator
  | [c] => .ok (String.mk [c])
  | _ => .error "Too many separators in tag"

/-- `getName` of `tags.go`; `Except.error` models the Go panic on a
duplicated `name` clause. -/
def getName (tag : String) : Except String String :=
  match matchesQ nameKey tag with
  | [] => .ok ""
  | [m] => .ok (String.mk m)
  | _ => .error "Too many name specifications in tag"

/-- `hasValues` of `tags.go`. -/
def hasValues (tag : String) : Bool :=
  !(matchesQ valuesKey tag).isEmpty

/-- `getValues` of `tags.go`: `none` when no `values` clause is present
(Go returns a nil slice), otherwise the quoted text split on commas with
each piece trimmed; `Except.error` models the Go panic on a duplicated
`values` clause. -/
def getValues (tag : String) : Except String (Option (List String)) :=
  match matchesQ valuesKey tag with
  | [] => .ok none
  | [m] => .ok (some ((goSplit (String.mk m) ",").map trimSpace))
  | _ => .error "Too many values specifications in tag"

/-! ## Scalar coercers -/

/-- `in` of `bool.go` (Go's `in(needle, haystack)`; `in` is a Lean keyword,
hence the name). -/
def inList (needle : String) (haystack : List String) : Bool :=
  haystack.any (fun value => value == needle)

/-- `boolValidator` of `bool.go`: `none` is the nil error. -/
def boolValidator (value : String) : Option String :=
  let booleanValues := ["true", "false", "yes", "no", "1", "0"]
  if !inList value booleanValues then some ("invalid boolean value: " ++ value)
  else none

/-- `boolParser` of `bool.go`: the cast is computed independently of the
validation, exactly as in the source. -/
def boolParser (value : String) : Bool × Option String :=
  let ok := boolValidator value
  let casted := inList value ["true", "yes", "1"]
  (casted, ok)

/-- Modelled from the spec: `stringParser` (its source file is not under
`src/`, only its tests); §4.2 — identity, always succeeds, including on the
empty string, which the string tests confirm. -/
def stringParser (value : String) : String × Option String :=
  (value, none)

/-- Decimal value of a digit list (most significant first). -/
def digitsToNat : List Char → Nat → Nat
  | [], acc => acc
  | c :: cs, acc => digitsToNat cs (acc * 10 + (c.toNat - 48))

/-- Modelled from the spec: `intParser` (its source file is not under
`src/`, only its tests); §4.2 — base-10 parse with one optional leading
`+`/`-`, no trimming, leading zeros read as decimal, out-of-range values
fail — the semantics of `strconv.Atoi` on a 64-bit platform, which also
fixes the accompanying value (0 on a syntax error, the clamped bound on a
range error), as the int tests confirm. -/
def intParser (value : String) : Int × Option String :=
  let (sign, ds) :=
    match value.data with
    | '+' :: rest => ((1 : Int), rest)
    | '-' :: rest => ((-1 : Int), rest)
    | l => ((1 : Int), l)
  if ds.isEmpty || !ds.all Char.isDigit then (0, some "invalid syntax")
  else
    let n : Int := sign * (digitsToNat ds 0 : Nat)
    if n < -(2 ^ 63) then (-(2 ^ 63), some "value out of range")
    else if n > 2 ^ 63 - 1 then (2 ^ 63 - 1, some "value out of range")
    else (n, none)

/-! ## `net.ParseIP` and the IPv4 coercer

`ipv4Validator` calls `net.ParseIP` and `net.IP.To4` from the Go standard
library; `net.ParseIP` (since Go 1.18) delegates to `netip.ParseAddr` and
rejects any zone, and always yields the 16-byte form (`Addr.As16`, which
maps an IPv4 address into `::ffff:a.b.c.d`).  The embedding below follows
`netip.ParseAddr` / `parseIPv4` / `parseIPv6` and `IP.To4`. -/

/-- One IPv4 decimal field as accepted by `netip.parseIPv4Fields`: at least
one digit, nothing but digits, value at most 255, and no leading zero
(`"0"` alone is fine).  Stated over the `.`-split of the input, which is
exactly the set of fields the in-place Go scan accepts. -/
def octetOk (l : List Char) : Bool :=
  match l with
  | [] => false
  | c :: cs => l.all Char.isDigit && decide (digitsToNat l 0 ≤ 255) &&
      !(c == '0' && !cs.isEmpty)

/-- `netip.parseIPv4`: exactly four `.`-separated fields, each a valid
octet; returns the four octet values. -/
def parseIPv4 (s : String) : Option (List Nat) :=
  let parts := goSplit s "."
  if parts.length == 4 && parts.all (fun p => octetOk p.data) then
    some (parts.map (fun p => digitsToNat p.data 0))
  else none

/-- Value of one hexadecimal digit, if any. -/
def hexDigitVal (c : Char) : Option Nat :=
  if c.toNat ≥ 48 && c.toNat ≤ 57 then some (c.toNat - 48)
  else if c.toNat ≥ 97 && c.toNat ≤ 102 then some (c.toNat - 87)
  else if c.toNat ≥ 65 && c.toNat ≤ 70 then some (c.toNat - 55)
  else none

/-- The inlined hex-field scan of `netip.parseIPv6`: consume hexadecimal
digits, failing on a fifth digit in a group and as soon as the accumulator
would exceed `0xFFFF`; returns the value, the digit count, and the
unconsumed input. -/
def hexFieldScan (acc cnt : Nat) : List Char → Except String (Nat × Nat × List Char)
  | [] => .ok (acc, cnt, [])
  | c :: cs =>
    match hexDigitVal c with
    | none => .ok (acc, cnt, c :: cs)
    | some v =>
      -- consuming a fifth digit fails (`off > 3` in Go), checked before the
      -- value test exactly as in `netip.parseIPv6`
      if cnt + 1 > 4 then .error "each group must have 4 or fewer digits"
      else
        let acc2 := acc * 16 + v
        if acc2 > 65535 then .error "IPv6 field has value >=2^16"
        else hexFieldScan acc2 (cnt + 1) cs

/-- The field loop of `netip.parseIPv6`.  `ip` is the list of bytes written
so far (its length is Go's `i`), `ell` the byte position of the `::` seen so
far, if any.  Returns the bytes, the ellipsis, and the unconsumed input on
normal exit or `break`; `Except.error` is a parse error. -/
def parseIPv6Loop : Nat → List Char → List Nat → Option Nat →
    Except String (List Nat × Option Nat × List Char)
  | 0, s, ip, ell => .ok (ip, ell, s)
  | fuel + 1, s, ip, ell =>
  if ip.length < 16 then
    match hexFieldScan 0 0 s with
    | .error e => .error e
    | .ok (acc, off, rest) =>
      if off == 0 then .error "each colon-separated field must have at least one digit"
      else if rest.head? == some '.' then
        -- trailing embedded IPv4, parsed from the start of the current field
        if ell.isNone && ip.length ≠ 12 then
          .error "embedded IPv4 address must replace the final 2 fields of the address"
        else if ip.length + 4 > 16 then
          .error "too many hex fields to fit an embedded IPv4 at the end of the address"
        else
          match parseIPv4 (String.mk s) with
          | none => .error "ParseAddr"
          | some os => .ok (ip ++ os, ell, [])
      else
        let ip2 := ip ++ [acc / 256, acc % 256]
        match rest with
        | [] => .ok (ip2, ell, [])
        | c :: cs =>
          if c ≠ ':' then .error "unexpected character, want colon"
          else
            match cs with
            | [] => .error "colon must be followed by more characters"
            | c2 :: cs2 =>
              if c2 = ':' then
                if ell.isSome then .error "multiple :: in address"
                else
                  match cs2 with
                  | [] => .ok (ip2, some ip2.length, [])
                  | _ => parseIPv6Loop fuel cs2 ip2 (some ip2.length)
              else parseIPv6Loop fuel (c2 :: cs2) ip2 ell
  else .ok (ip, ell, s)

/-- `netip.parseIPv6`, composed with the zone restriction of `net.parseIP`:
a `%` anywhere makes `net.ParseIP` return nil (an empty zone is an error in
`parseIPv6`, a non-empty one is rejected by `net.parseIP`), a leading `::`
primes the ellipsis, and after the loop the input must be exhausted and the
ellipsis expanded to fill exactly 16 bytes. -/
def parseIPv6 (s0 : String) : Except String (List Nat) :=
  if s0.data.contains '%' then .error "zone rejected by net.parseIP"
  else
    match s0.data with
    | ':' :: ':' :: rest =>
      if rest.isEmpty then .ok (List.replicate 16 0)
      else parseIPv6Finish rest (some 0)
    | l => parseIPv6Finish l none
where
  parseIPv6Finish (s : List Char) (ell0 : Option Nat) : Except String (List Nat) :=
    match parseIPv6Loop 8 s [] ell0 with
    | .error e => .error e
    | .ok (ip, ell, rest) =>
      if !rest.isEmpty then .error "trailing garbage after address"
      else if ip.length < 16 then
        match ell with
        | none => .error "address string too short"
        | some e => .ok (ip.take e ++ List.replicate (16 - ip.length) 0 ++ ip.drop e)
      else if ell.isSome then .error "the :: must expand to at least one field of zeros"
      else .ok ip

/-- The dispatch scan of `netip.ParseAddr`: the first of `.`, `:`, `%`
decides the grammar. -/
def firstSpecial : List Char → Option Char
  | [] => none
  | c :: cs => if c = '.' || c = ':' || c = '%' then some c else firstSpecial cs

/-- The 16-byte IPv4-in-IPv6 mapping `::ffff:a.b.c.d` (`Addr.As16` on an
IPv4 address). -/
def v4InV6 (os : List Nat) : List Nat :=
  [0, 0, 0, 0, 0, 0, 0, 0, 0, 0, 255, 255] ++ os

/-- `net.ParseIP`: `some` is the non-nil 16-byte `IP`, `none` is nil. -/
def parseIP (s : String) : Option (List Nat) :=
  match firstSpecial s.data with
  | some '.' => (parseIPv4 s).map v4InV6
  | some ':' => (parseIPv6 s).toOption
  | _ => none

/-- `net.IP.To4` returns non-nil on a 16-byte `IP` exactly when the address
is IPv4-in-IPv6 (`isZeros(ip[0:10]) && ip[10] == 0xff && ip[11] == 0xff`). -/
def isV4In6 (bs : List Nat) : Bool :=
  bs.length == 16 && (bs.take 10).all (· == 0) &&
  bs[10]? == some 255 && bs[11]? == some 255

/-- `ipv4Validator` of `ipv4.go`: `net.ParseIP` must succeed and `To4` must
be non-nil. -/
def ipv4Validator (value : String) : Option String :=
  match parseIP value with
  | none => some ("invalid IPv4 address: " ++ value)
  | some ip =>
    if isV4In6 ip then none else some ("invalid IPv4 address: " ++ value)

/-- `ipv4Parser` of `ipv4.go`. -/
def ipv4Parser (value : String) : String × Option String :=
  match ipv4Validator value with
  | some e => ("", some e)
  | none => (value, none)

/-! ## `net/url.ParseRequestURI` and the URL coercers

`urlValidator` calls `url.ParseRequestURI`, i.e. `url.parse` with
`viaRequest = true`.  The embedding below follows that code path:
`getScheme`, the query split, the opaque/rootless handling, authority
parsing (`parseAuthority`, `parseHost`, `validOptionalPort`,
`validUserinfo`) and percent-escape validation (`unescape`).  Decoded
percent-escapes are not reconstructed (no claim inspects decoded text);
`unescapeOk` keeps exactly the success/failure behaviour of `unescape`. -/

/-- Index of the last occurrence of a character. -/
def lastIdxOf (l : List Char) (c : Char) : Option Nat :=
  ((l.enum.filter (fun p => p.2 = c)).getLast?).map (·.1)

/-- Index of the first occurrence of a sublist (`strings.Index`). -/
def idxOfSub (hay needle : List Char) : Option Nat :=
  match hay with
  | [] => if needle.isEmpty then some 0 else none
  | _ :: t =>
    if needle.isPrefixOf hay then some 0
    else (idxOfSub t needle).map (· + 1)

/-- `stringContainsCTLByte` of `net/url`. -/
def containsCTLByte (s : String) : Bool :=
  s.data.any (fun c => c.toNat < 0x20 || c.toNat == 0x7f)

/-- `getScheme` of `net/url` for a string whose first character is not `:`
(that case errors before this scan): returns the scheme and the remainder,
or no scheme and the whole input. -/
def getSchemeAux (full : List Char) (acc : List Char) : List Char → String × String
  | [] => ("", String.mk full)
  | c :: cs =>
    if ('a' ≤ c && c ≤ 'z') || ('A' ≤ c && c ≤ 'Z') then
      getSchemeAux full (c :: acc) cs
    else if c = ':' then (String.mk acc.reverse, String.mk cs)
    else if (c.isDigit || c = '+' || c = '-' || c = '.') && !acc.isEmpty then
      getSchemeAux full (c :: acc) cs
    else ("", String.mk full)

/-- `getScheme` of `net/url`. -/
def getScheme (rawURL : String) : Except String (String × String) :=
  match rawURL.data with
  | ':' :: _ => .error "missing protocol scheme"
  | l => .ok (getSchemeAux l [] l)

/-- `validOptionalPort` of `net/url`. -/
def validOptionalPort (port : String) : Bool :=
  match port.data with
  | [] => true
  | ':' :: digits => digits.all (fun c => '0' ≤ c && c ≤ '9')
  | _ => false

/-- The encodings of `net/url.unescape` that `ParseRequestURI` exercises. -/
inductive EscMode where
  | host
  | zone
  | path
  | userPassword
deriving DecidableEq

/-- `shouldEscape(c, encodeHost)` (identical for `encodeZone`): the
characters that may appear raw in a host. -/
def shouldEscapeHostZone (c : Char) : Bool :=
  !(c.isAlphanum ||
    ['!', '$', '&', '\x27', '(', ')', '*', '+', ',', ';', '=', ':',
     '[', ']', '<', '>', '"'].contains c ||
    ['-', '_', '.', '~'].contains c)

/-- The success/failure behaviour of `net/url.unescape`: every `%` must head
a valid two-digit escape; in the host encoding an escape below `0x80` other
than `%25` is refused; in the zone encoding (RFC 6874) an escape other than
`%25` and the space byte whose unescaped byte `shouldEscape` flags for a
host is refused; and a raw ASCII character that `shouldEscape` flags for
host/zone is refused. -/
def unescapeOk (mode : EscMode) : List Char → Bool
  | [] => true
  | '%' :: rest =>
    match rest with
    | a :: b :: rest2 =>
      if (hexDigitVal a).isSome && (hexDigitVal b).isSome then
        if mode = .host && (hexDigitVal a).getD 0 < 8 && !(a = '2' && b = '5') then
          false
        else if mode = .zone &&
            !(a = '2' && b = '5') &&
            ((hexDigitVal a).getD 0 * 16 + (hexDigitVal b).getD 0) ≠ 32 &&
            shouldEscapeHostZone
              (Char.ofNat ((hexDigitVal a).getD 0 * 16 + (hexDigitVal b).getD 0)) then
          false
        else unescapeOk mode rest2
      else false
    | _ => false
  | c :: rest =>
    if (mode = .host || mode = .zone) && c.toNat < 0x80 && shouldEscapeHostZone c then
      false
    else unescapeOk mode rest

/-- `validUserinfo` of `net/url`. -/
def validUserinfo (s : String) : Bool :=
  s.data.all (fun c =>
    c.isAlphanum ||
    ['-', '.', '_', ':', '~', '!', '$', '&', '\x27',
     '(', ')', '*', '+', ',', ';', '=', '%', '@'].contains c)

/-- `parseHost` of `net/url` (the returned string is kept raw: no claim
reads decoded escapes). -/
def parseHost (host : String) : Except String String :=
  if host.data.head? = some '[' then
    match lastIdxOf host.data ']' with
    | none => .error "missing right bracket in host"
    | some i =>
      let colonPort := String.mk (host.data.drop (i + 1))
      if !validOptionalPort colonPort then .error "invalid port after host"
      else
        match idxOfSub (host.data.take i) "%25".data with
        | some zone =>
          if unescapeOk .host (host.data.take zone) &&
             unescapeOk .zone ((host.data.take i).drop zone) &&
             unescapeOk .host (host.data.drop i) then .ok host
          else .error "escape error in host"
        | none =>
          if unescapeOk .host host.data then .ok host
          else .error "escape error in host"
  else
    match lastIdxOf host.data ':' with
    | some i =>
      let colonPort := String.mk (host.data.drop i)
      if !validOptionalPort colonPort then .error "invalid port after host"
      else if unescapeOk .host host.data then .ok host
      else .error "escape error in host"
    | none =>
      if unescapeOk .host host.data then .ok host
      else .error "escape error in host"

/-- `parseAuthority` of `net/url` (userinfo split at the last `@`; the
userinfo's percent-escapes are validated as one piece, which refuses
exactly the same strings as Go's user/password split, since `:` is not a
hexadecimal digit and so never occurs inside a valid escape). -/
def parseAuthority (authority : String) : Except String String :=
  match lastIdxOf authority.data '@' with
  | none => parseHost authority
  | some k => do
    let host ← parseHost (String.mk (authority.data.drop (k + 1)))
    let userinfo := String.mk (authority.data.take k)
    if !validUserinfo userinfo then .error "net/url: invalid userinfo"
    else if !unescapeOk .userPassword userinfo.data then .error "escape error in userinfo"
    else pure host

/-- The result of `url.Parse` restricted to the fields this library reads
(`Scheme` for the HTTPURL check) plus the components that decide success. -/
structure URLRec where
  scheme : String
  opq : String := ""
  host : String := ""
  path : String := ""
  rawQuery : String := ""
  forceQuery : Bool := false
deriving DecidableEq, Repr

/-- `net/url.parse` with `viaRequest = true`, i.e. `ParseRequestURI`. -/
def parseURL (rawURL : String) : Except String URLRec :=
  if containsCTLByte rawURL then .error "net/url: invalid control character in URL"
  else if rawURL = "" then .error "empty url"
  else if rawURL = "*" then .ok { scheme := "", path := "*" }
  else do
    let (scheme0, rest0) ← getScheme rawURL
    let scheme := toLower scheme0
    let (rest1, rawQuery, forceQuery) :=
      if rest0.data.getLast? = some '?' && !(rest0.data.dropLast.contains '?') then
        (String.mk rest0.data.dropLast, "", true)
      else
        let (r, q) := rest0.data.span (fun c => c ≠ '?')
        (String.mk r, String.mk (q.drop 1), false)
    if rest1.data.head? ≠ some '/' then
      if scheme ≠ "" then pure { scheme, opq := rest1, rawQuery, forceQuery }
      else .error "invalid URI for request"
    else
      -- with viaRequest the authority branch needs a scheme
      if scheme ≠ "" && "//".data.isPrefixOf rest1.data then do
        let afterSlashes := rest1.data.drop 2
        let (authority, rest2) := afterSlashes.span (fun c => c ≠ '/')
        let host ← parseAuthority (String.mk authority)
        if unescapeOk .path rest2 then
          pure { scheme, host, path := String.mk rest2, rawQuery, forceQuery }
        else .error "escape error in path"
      else
        if unescapeOk .path rest1.data then
          pure { scheme, path := rest1, rawQuery, forceQuery }
        else .error "escape error in path"

/-- `urlValidator` of the URL coercer file: trims, refuses an empty result,
and parses the trimmed text as a request URI (the parsed URL is returned
for `httpURLValidator` to inspect). -/
def urlValidator (value : String) : Except String URLRec :=
  let originalValue := trimSpace value
  if originalValue = "" then .error "empty URL"
  else
    match parseURL originalValue with
    | .error e => .error ("invalid URL format: " ++ e)
    | .ok u => .ok u

/-- `urlParser`: the original (untrimmed) input is returned on success. -/
def urlParser (value : String) : String × Option String :=
  match urlValidator value with
  | .error e => ("", some e)
  | .ok _ => (value, none)

/-- `httpURLValidator`: the scheme must be exactly `http` or `https`. -/
def httpURLValidator (value : String) : Option String :=
  match urlValidator value with
  | .error e => some e
  | .ok u =>
    if u.scheme ≠ "http" && u.scheme ≠ "https" then
      some ("HTTPURL only accepts http:// or https:// protocols, got: " ++ u.scheme ++ "://")
    else none

/-- `httpURLParser`. -/
def httpURLParser (value : String) : String × Option String :=
  match httpURLValidator value with
  | some e => ("", some e)
  | none => (value, none)

/-! ## The validation engine (`main.go`) -/

/-- A parsed value, as the `any` results of the coercers: the registry
produces strings (`string`, `ipv4`, `url`, `httpurl`), integers and
booleans. -/
inductive GoValue where
  | str (s : String)
  | int (n : Int)
  | bool (b : Bool)
deriving DecidableEq, Repr

/-- `parseVariable` of `main.go`: dispatch on the lower-cased type name;
`Except.error` models the Go panic on an unrecognized type. The value
component mirrors Go's: the coercer's result is returned even alongside a
non-nil error. -/
def parseVariable (fieldName fieldType value : String) :
    Except String (GoValue × Option String) :=
  match toLower fieldType with
  | "bool" => .ok (.bool (boolParser value).1, (boolParser value).2)
  | "string" => .ok (.str (stringParser value).1, (stringParser value).2)
  | "ipv4" => .ok (.str (ipv4Parser value).1, (ipv4Parser value).2)
  | "int" => .ok (.int (intParser value).1, (intParser value).2)
  | "url" => .ok (.str (urlParser value).1, (urlParser value).2)
  | "httpurl" => .ok (.str (httpURLParser value).1, (httpURLParser value).2)
  | _ => .error ("Unrecognized type " ++ fieldType ++ " for field " ++ fieldName)

/-- `validateAndParseSlice` of `main.go`: split on every occurrence of the
separator, coerce each piece, collect every parsed value, and report a
single error when any piece failed (the Go message renders the `allOk`
flag). -/
def validateAndParseSlice (fieldName fieldType value sep : String) :
    Except String (List GoValue × Option String) := do
  let results ← (goSplit value sep).mapM (fun slice => parseVariable fieldName fieldType slice)
  let values := results.map (·.1)
  if !results.all (fun r => r.2.isNone) then .ok (values, some "invalid slice: false")
  else .ok (values, none)

/-- One declared record field: the identifier, the scalar type name
(`field.Type.Name()`), the slice flag with the element type name
(`field.Type.Elem()`), and the `env` declaration tag (an absent tag reads
as `""`, exactly what `Tag.Get` yields). -/
structure Field where
  name : String
  typeName : String := ""
  isSlice : Bool := false
  elemTypeName : String := ""
  tag : String
deriving DecidableEq, Repr

/-- The process environment: `os.Getenv` (unset names read as `""`). -/
def GoEnvLookup : Type := String → String

/-- `reflect.Kind` restricted to what the engine stores: `Slice` for slice
fields, otherwise the underlying kind of the registered scalar types
(`int`, `bool`, and `string` — the custom `IPv4`/`URL`/`HTTPURL` types are
declared over `string`). -/
inductive GoKind where
  | slice
  | int
  | bool
  | string
deriving DecidableEq, Repr

/-- `field.Type.Kind()` for the types the registry covers. -/
def kindOf (f : Field) : GoKind :=
  if f.isSlice then .slice
  else
    match toLower f.typeName with
    | "int" => .int
    | "bool" => .bool
    | _ => .string

/-- The `reflect.Value` stored in an `envVarType`: the *zero* `Value`
(`reflect.Value{}`, an invalid Value — note: not `reflect.Zero(type)`), or
a value of a scalar, or the `[]any` of a parsed slice. -/
inductive RValue where
  | invalidValue
  | scalar (v : GoValue)
  | sliceV (vs : List GoValue)
deriving DecidableEq, Repr

/-- `envVarType` of `main.go`. -/
structure EnvVarType where
  value : RValue
  kind : GoKind
deriving DecidableEq, Repr

/-- `getEnvVarNameFromField` of `main.go` (custom `name` clause, else the
declared identifier); a duplicated `name` clause propagates the `getName`
panic. -/
def getEnvVarNameFromField (f : Field) : Except String String := do
  let name ← getName f.tag
  pure (if name = "" then f.name else name)

/-- The lookup key `Validate` computes for a field:
`strings.ToUpper(getEnvVarNameFromField(field))`. -/
def resolvedEnvName (f : Field) : Except String String :=
  (getEnvVarNameFromField f).map goToUpper

/-- What one loop iteration of `Validate` does with a field. -/
inductive FieldOutcome where
  | missing (label : String)
  | invalid (label value : String)
  | store (entry : EnvVarType)
deriving DecidableEq, Repr

/-- One iteration of the field loop of `Validate` (`main.go`): resolve the
upper-cased lookup name, read the environment, resolve the
optional/default cases on an empty value, and otherwise coerce as a slice
or a scalar.  `Except.error` models the panics that can escape the loop
body (duplicate `name`/`separator` clauses, unrecognized type). -/
def fieldOutcome (f : Field) (env : GoEnvLookup) : Except String FieldOutcome := do
  let name ← resolvedEnvName f
  let value0 := env name
  let optional := isOptional f.tag
  if value0 = "" && !optional then
    pure (.missing (f.name ++ " (" ++ name ++ ")"))
  else if value0 = "" && optional && !hasDefault f.tag then
    pure (.store ⟨.invalidValue, kindOf f⟩)
  else
    let value := if value0 = "" then getDefault f.tag else value0
    if f.isSlice then do
      let sep ← getSeparator f.tag
      let (vs, ok) ← validateAndParseSlice f.name f.elemTypeName value sep
      if ok.isSome then pure (.invalid (f.name ++ " (" ++ name ++ ")") value)
      else pure (.store ⟨.sliceV vs, .slice⟩)
    else do
      let (v, ok) ← parseVariable f.name f.typeName value
      if ok.isSome then pure (.invalid (f.name ++ " (" ++ name ++ ")") value)
      else pure (.store ⟨.scalar v, kindOf f⟩)

/-- The aggregate state `Validate` returns: the two ordered report lists
and the environment map keyed by declared identifier. -/
structure ValidateResult where
  missing : List String
  invalid : List (String × String)
  envMap : List (String × EnvVarType)
deriving DecidableEq, Repr

/-- `Validate` of `main.go` over the declared fields of a record type (the
non-struct panic is outside this model: a field list is a record by
construction).  Field order is preserved in all three components. -/
def Validate : List Field → GoEnvLookup → Except String ValidateResult
  | [], _ => .ok ⟨[], [], []⟩
  | f :: fs, env => do
    let o ← fieldOutcome f env
    let r ← Validate fs env
    match o with
    | .missing l => .ok ⟨l :: r.missing, r.invalid, r.envMap⟩
    | .invalid l v => .ok ⟨r.missing, (l, v) :: r.invalid, r.envMap⟩
    | .store e => .ok ⟨r.missing, r.invalid, (f.name, e) :: r.envMap⟩

/-- A field of the populated instance `Assert` returns. -/
inductive FieldVal where
  | scalar (v : GoValue)
  | sliceV (vs : List GoValue)
deriving DecidableEq, Repr

/-- The zero value `reflect.New(T).Elem()` gives a field: nil slice, `0`,
`false`, or the empty string (also for the custom string types). -/
def zeroFieldVal (f : Field) : FieldVal :=
  if f.isSlice then .sliceV []
  else
    match kindOf f with
    | .int => .scalar (.int 0)
    | .bool => .scalar (.bool false)
    | _ => .scalar (.str "")

/-- The population step of `Assert` for one field.  A field absent from the
map keeps its zero value.  For a stored slice the elements are converted
one by one (each parsed element already has the target's underlying kind,
so `ConvertibleTo` holds and the values transfer); a stored zero
`reflect.Value` under a slice kind fails the `Kind() == reflect.Slice`
test and the field stays zero.  For a non-slice entry the code first calls
`envVar.Value.Type()`, which *panics* on the zero `reflect.Value`
(`reflect.Value.Type on zero Value`); otherwise `ConvertibleTo` holds for
every registered type and the stored value transfers. -/
def populateField (f : Field) (envMap : List (String × EnvVarType)) : Except String FieldVal :=
  match envMap.lookup f.name with
  | none => .ok (zeroFieldVal f)
  | some e =>
    if e.kind = .slice then
      match e.value with
      | .sliceV vs => .ok (.sliceV vs)
      | _ => .ok (zeroFieldVal f)
    else
      match e.value with
      | .invalidValue => .error "reflect: call of reflect.Value.Type on zero Value"
      | .scalar v => .ok (.scalar v)
      | .sliceV vs => .ok (.sliceV vs)

/-- What a call of `Assert` does: a Go panic (from schema errors or the
reflection slip above), an error return (with the zero instance), or the
populated instance. -/
inductive AssertResult where
  | panicked (msg : String)
  | failed (missing : List String) (invalid : List (String × String))
  | ok (inst : List (String × FieldVal))
deriving DecidableEq, Repr

/-- `Assert` of `main.go`: validate, return the aggregated failure (the
error renders the two lists; the zero instance accompanies it), else build
the instance field by field.  `failed` carries the two lists the error
message renders. -/
def Assert (fields : List Field) (env : GoEnvLookup) : AssertResult :=
  match Validate fields env with
  | .error e => .panicked e
  | .ok r =>
    if !r.missing.isEmpty || !r.invalid.isEmpty then .failed r.missing r.invalid
    else
      match fields.mapM (fun f => (populateField f r.envMap).map (fun v => (f.name, v))) with
      | .error e => .panicked e
      | .ok inst => .ok inst

/-! ## The allowed-values extension of `Validate`

`values_test.go` exercises an allowed-values check inside `Validate` (a
non-member raw value is Invalid, and a default value outside the set
panics with `Default value ... is not in allowed values`), but the
`Validate` in `src/main.go` has no such check — the implementing code is
not under `src/`, only its tests and the `getValues`/`hasValues` helpers
of `tags.go`. -/

/-- Modelled from the spec: the field loop of `Validate` with the
allowed-values step — missing from `src/` (only `values_test.go` and the
`tags.go` helpers exist).  Follows §4.4: after the empty-value resolution
(with `defaultRaw` substituted for an absent optional value), a declared
`allowedValues` set is checked by literal membership of the raw string
*before* any coercion; non-membership is Invalid, and a failure of the
substituted default — membership or coercion — is a fatal schema error
(§6, §7), modelled as `Except.error` like every other panic, with the
message shape asserted by `values_test.go`. -/
def fieldOutcomeV (f : Field) (env : GoEnvLookup) : Except String FieldOutcome := do
  let name ← resolvedEnvName f
  let value0 := env name
  let optional := isOptional f.tag
  if value0 = "" && !optional then
    pure (.missing (f.name ++ " (" ++ name ++ ")"))
  else if value0 = "" && optional && !hasDefault f.tag then
    pure (.store ⟨.invalidValue, kindOf f⟩)
  else
    let usedDefault := value0 = ""
    let value := if usedDefault then getDefault f.tag else value0
    let vals ← getValues f.tag
    if vals.isSome && !inList value (vals.getD []) then
      if usedDefault then
        .error ("Default value " ++ value ++ " for field " ++ f.name ++
                " is not in allowed values")
      else pure (.invalid (f.name ++ " (" ++ name ++ ")") value)
    else if f.isSlice then do
      let sep ← getSeparator f.tag
      let (vs, ok) ← validateAndParseSlice f.name f.elemTypeName value sep
      if ok.isSome then
        if usedDefault then
          .error ("Default value " ++ value ++ " for field " ++ f.name ++ " failed coercion")
        else pure (.invalid (f.name ++ " (" ++ name ++ ")") value)
      else pure (.store ⟨.sliceV vs, .slice⟩)
    else do
      let (v, ok) ← parseVariable f.name f.typeName value
      if ok.isSome then
        if usedDefault then
          .error ("Default value " ++ value ++ " for field " ++ f.name ++ " failed coercion")
        else pure (.invalid (f.name ++ " (" ++ name ++ ")") value)
      else pure (.store ⟨.scalar v, kindOf f⟩)

/-! ## General lemmas about the engine -/

/-- Unfolding of `Validate` on a non-empty schema. -/
theorem Validate_cons (f : Field) (fs : List Field) (env : GoEnvLookup) :
    Validate (f :: fs) env =
      Except.bind (fieldOutcome f env) (fun o =>
        Except.bind (Validate fs env) (fun r =>
          match o with
          | .missing l => .ok ⟨l :: r.missing, r.invalid, r.envMap⟩
          | .invalid l v => .ok ⟨r.missing, (l, v) :: r.invalid, r.envMap⟩
          | .store e => .ok ⟨r.missing, r.invalid, (f.name, e) :: r.envMap⟩)) := rfl

/-- A field whose loop iteration reports Missing contributes its label to
the missing list of any successful `Validate` run over a schema containing
it. -/
theorem mem_missing_of_fieldOutcome {fields : List Field} {env : GoEnvLookup}
    {r : ValidateResult} {f : Field} {l : String}
    (hv : Validate fields env = .ok r) (hf : f ∈ fields)
    (ho : fieldOutcome f env = .ok (.missing l)) : l ∈ r.missing := by
  induction fields generalizing r with
  | nil => simp at hf
  | cons g gs ih =>
    rw [Validate_cons] at hv
    cases hg : fieldOutcome g env with
    | error e => rw [hg] at hv; simp [Except.bind] at hv
    | ok o =>
      rw [hg] at hv
      cases hr : Validate gs env with
      | error e => rw [hr] at hv; simp [Except.bind] at hv
      | ok r' =>
        rw [hr] at hv
        simp only [Except.bind] at hv
        rcases List.mem_cons.mp hf with rfl | hmem
        · rw [ho] at hg
          injection hg with hg'
          subst hg'
          simp at hv
          rw [← hv]
          exact List.mem_cons_self _ _
        · have hl := ih hr hmem
          cases o with
          | missing l2 =>
            simp at hv
            rw [← hv]
            exact List.mem_cons_of_mem _ hl
          | invalid l2 v2 =>
            simp at hv
            rw [← hv]
            exact hl
          | store e2 =>
            simp at hv
            rw [← hv]
            exact hl

/-- A required field with an empty environment value is reported Missing
with the `declared (RESOLVED)` label. -/
theorem fieldOutcome_missing {f : Field} {env : GoEnvLookup} {nm : String}
    (hn : resolvedEnvName f = .ok nm) (he : env nm = "")
    (hopt : isOptional f.tag = false) :
    fieldOutcome f env = .ok (.missing (f.name ++ " (" ++ nm ++ ")")) := by
  unfold fieldOutcome
  rw [hn]
  simp [Bind.bind, Except.bind, pure, Except.pure, he, hopt]

/-- A successful `mapM` over `Except` is the pointwise relation between
input and output lists. -/
theorem mapM_ok_forall₂ {α β : Type} {g : α → Except String β} :
    ∀ {l : List α} {out : List β}, l.mapM g = .ok out →
      List.Forall₂ (fun a b => g a = .ok b) l out := by
  intro l
  induction l with
  | nil =>
    intro out h
    simp only [List.mapM_nil, pure, Except.pure] at h
    injection h with h
    rw [← h]
    constructor
  | cons a as ih =>
    intro out h
    rw [List.mapM_cons] at h
    cases hg : g a with
    | error e => rw [hg] at h; simp [Bind.bind, Except.bind] at h
    | ok b =>
      rw [hg] at h
      cases hs : as.mapM g with
      | error e =>
        rw [hs] at h
        simp [Bind.bind, Except.bind] at h
      | ok bs =>
        rw [hs] at h
        simp only [Bind.bind, Except.bind, pure, Except.pure] at h
        injection h with h
        rw [← h]
        exact List.Forall₂.cons hg (ih hs)

/-- All element parses carry nil errors iff every piece coerces cleanly. -/
theorem all_isNone_iff {g : String → Except String (GoValue × Option String)}
    {pieces : List String} {results : List (GoValue × Option String)}
    (h : List.Forall₂ (fun a b => g a = .ok b) pieces results) :
    (results.all (fun r => r.2.isNone) = true ↔
      ∀ p ∈ pieces, ∃ pv, g p = .ok (pv, none)) := by
  induction h with
  | nil => simp
  | cons hab hrest ih =>
    rename_i a b as bs
    simp only [List.all_cons, Bool.and_eq_true, List.mem_cons]
    constructor
    · rintro ⟨hb, hall⟩ p (rfl | hp)
      · refine ⟨b.1, ?_⟩
        rw [hab]
        cases b with
        | mk b1 b2 => cases b2 <;> simp_all
      · exact (ih.mp hall) p hp
    · intro hall
      constructor
      · obtain ⟨pv, hpv⟩ := hall a (Or.inl rfl)
        rw [hab] at hpv
        injection hpv with hpv
        rw [hpv]
        rfl
      · exact ih.mpr (fun p hp => hall p (Or.inr hp))

/-! ## Lemmas about splitting and the IPv4 grammar -/

/-- `strings.Split` on a one-character separator, without fuel (the
reference point for `splitOnFuel`). -/
def splitOne (sc : Char) : List Char → List (List Char)
  | [] => [[]]
  | c :: rest =>
    if c = sc then [] :: splitOne sc rest
    else
      match splitOne sc rest with
      | [] => [[c]]
      | h :: t => (c :: h) :: t

theorem splitOnFuel_eq_splitOne (sc : Char) :
    ∀ (l : List Char) (fuel : Nat), l.length ≤ fuel →
      splitOnFuel [sc] fuel l = splitOne sc l := by
  intro l
  induction l with
  | nil => intro fuel _; cases fuel <;> rfl
  | cons c rest ih =>
    intro fuel hf
    cases fuel with
    | zero => simp at hf
    | succ k =>
      have hk : rest.length ≤ k := by simp at hf; omega
      by_cases h : c = sc
      · have hb : (sc == c) = true := by simp [h]
        simp [splitOnFuel, splitOne, List.isPrefixOf, hb, h, ih k hk]
      · have hb : (sc == c) = false := by simp [Ne.symm h]
        simp only [splitOnFuel, splitOne, List.isPrefixOf, hb, h, ih k hk,
          Bool.false_and, Bool.and_true, if_false, if_neg h]
        cases splitOne sc rest <;> rfl

theorem splitOne_sep_cons (sc : Char) (w r : List Char) (hw : ∀ c ∈ w, c ≠ sc) :
    splitOne sc (w ++ sc :: r) = w :: splitOne sc r := by
  induction w with
  | nil => simp [splitOne]
  | cons c w' ih =>
    have hc : c ≠ sc := hw c (List.mem_cons_self _ _)
    have hw' : ∀ a ∈ w', a ≠ sc := fun a ha => hw a (List.mem_cons_of_mem _ ha)
    rw [List.cons_append]
    simp only [splitOne, if_neg hc]
    rw [ih hw']

theorem splitOne_no_sep (sc : Char) (w : List Char) (hw : ∀ c ∈ w, c ≠ sc) :
    splitOne sc w = [w] := by
  induction w with
  | nil => rfl
  | cons c w' ih =>
    have hc : c ≠ sc := hw c (List.mem_cons_self _ _)
    have hw' : ∀ a ∈ w', a ≠ sc := fun a ha => hw a (List.mem_cons_of_mem _ ha)
    simp [splitOne, if_neg hc, ih hw']

theorem octetOk_digits {l : List Char} (h : octetOk l = true) :
    ∀ c ∈ l, c.isDigit = true := by
  cases l with
  | nil => simp [octetOk] at h
  | cons c cs =>
    simp only [octetOk, Bool.and_eq_true, List.all_eq_true] at h
    exact h.1.1

theorem digit_not_special {c : Char} (h : c.isDigit = true) :
    ¬(c = '.' || c = ':' || c = '%') = true := by
  intro hc
  simp only [Bool.or_eq_true, decide_eq_true_eq] at hc
  rcases hc with (rfl | rfl) | rfl <;> simp [Char.isDigit] at h

theorem firstSpecial_digits_dot {w r : List Char}
    (hw : ∀ c ∈ w, c.isDigit = true) :
    firstSpecial (w ++ '.' :: r) = some '.' := by
  induction w with
  | nil => simp [firstSpecial]
  | cons c w' ih =>
    have hc := hw c (List.mem_cons_self _ _)
    have hw' : ∀ a ∈ w', a.isDigit = true := fun a ha => hw a (List.mem_cons_of_mem _ ha)
    simp only [List.cons_append, firstSpecial, if_neg (digit_not_special hc)]
    exact ih hw'

theorem mk_data (s : String) : String.mk s.data = s := rfl

/-- The `.`-split of a well-formed dotted quad is its four octet tokens. -/
theorem goSplit_quad (w x y z : String)
    (hw : ∀ c ∈ w.data, c ≠ '.') (hx : ∀ c ∈ x.data, c ≠ '.')
    (hy : ∀ c ∈ y.data, c ≠ '.') (hz : ∀ c ∈ z.data, c ≠ '.') :
    goSplit (w ++ "." ++ x ++ "." ++ y ++ "." ++ z) "." = [w, x, y, z] := by
  have hdata : (w ++ "." ++ x ++ "." ++ y ++ "." ++ z).data =
      w.data ++ '.' :: (x.data ++ '.' :: (y.data ++ '.' :: z.data)) := by
    simp [String.data_append]
  unfold goSplit
  simp only [hdata]
  rw [splitOnFuel_eq_splitOne '.' _ _ (le_refl _)]
  rw [splitOne_sep_cons _ _ _ hw, splitOne_sep_cons _ _ _ hx,
      splitOne_sep_cons _ _ _ hy, splitOne_no_sep _ _ hz]
  simp [mk_data]

theorem octetOk_no_dot {l : List Char} (h : octetOk l = true) :
    ∀ c ∈ l, c ≠ '.' := by
  intro c hc heq
  have := octetOk_digits h c hc
  subst heq
  simp [Char.isDigit] at this

/-- A slice field with a non-empty environment value coerces via
`validateAndParseSlice`; the outcome is Invalid or a stored slice according
to the returned error. -/
theorem fieldOutcome_slice_eq {f : Field} {env : GoEnvLookup}
    {nm raw sep : String} {vs : List GoValue} {err : Option String}
    (hslice : f.isSlice = true)
    (hn : resolvedEnvName f = .ok nm) (he : env nm = raw) (hraw : raw ≠ "")
    (hsep : getSeparator f.tag = .ok sep)
    (hp : validateAndParseSlice f.name f.elemTypeName raw sep = .ok (vs, err)) :
    fieldOutcome f env = .ok (if err.isSome
        then .invalid (f.name ++ " (" ++ nm ++ ")") raw
        else .store ⟨.sliceV vs, .slice⟩) := by
  unfold fieldOutcome
  rw [hn]
  simp only [Bind.bind, Except.bind]
  rw [he]
  simp only [hraw, hslice, if_true, decide_eq_true_eq, if_neg hraw]
  simp [hraw, hslice, hsep, hp, Bind.bind, Except.bind, pure, Except.pure]
  cases err <;> simp

/-- A single-field schema whose field is Invalid yields exactly that invalid
entry, an empty environment map, and a failed `Assert` with no instance. -/
theorem single_field_invalid {f : Field} {env : GoEnvLookup} {l raw : String}
    (ho : fieldOutcome f env = .ok (.invalid l raw)) :
    Validate [f] env = .ok ⟨[], [(l, raw)], []⟩ ∧
    Assert [f] env = .failed [] [(l, raw)] := by
  have hv : Validate [f] env = .ok ⟨[], [(l, raw)], []⟩ := by
    rw [Validate_cons, ho]
    rfl
  refine ⟨hv, ?_⟩
  unfold Assert
  rw [hv]
  rfl

/-! ## The claims -/

/-- C1: for every field declaring an allowed-values clause, a non-empty raw
value resolved from the environment that is not a literal member of the
declared set is reported Invalid — with no hypothesis about any coercer,
so membership is decided before and independently of type coercion (the
witness pairs this with `intParser "3000"` succeeding). -/
theorem C1_allowed_values_membership {f : Field} {env : GoEnvLookup}
    {nm raw : String} {vs : List String}
    (hn : resolvedEnvName f = .ok nm) (he : env nm = raw) (hraw : raw ≠ "")
    (hv : getValues f.tag = .ok (some vs)) (hmem : inList raw vs = false) :
    fieldOutcomeV f env = .ok (.invalid (f.name ++ " (" ++ nm ++ ")") raw) := by
  unfold fieldOutcomeV
  rw [hn]
  simp only [Bind.bind, Except.bind]
  rw [he]
  simp [hraw, hv, hmem, Bind.bind, Except.bind, pure, Except.pure]

/-- C1 witness: `values='8000,8080,9000'` rejects the raw `"3000"` even
though `"3000"` coerces as an integer. -/
theorem C1_allowed_values_membership_witness :
    fieldOutcomeV ⟨"Port", "int", false, "", "values=\x278000,8080,9000\x27"⟩
        (fun n => if n = "PORT" then "3000" else "") =
      .ok (.invalid ("Port" ++ " (" ++ "PORT" ++ ")") "3000") ∧
    intParser "3000" = (3000, none) :=
  ⟨@C1_allowed_values_membership
      ⟨"Port", "int", false, "", "values=\x278000,8080,9000\x27"⟩
      (fun n => if n = "PORT" then "3000" else "")
      "PORT" "3000" ["8000", "8080", "9000"]
      (by decide) (by decide) (by decide) (by decide) (by decide),
    by decide⟩

/-- C2 (at the failing input): an optional, non-slice field with no default
and no environment value is neither missing nor invalid after `Validate` —
it is stored as the zero `reflect.Value` marker — but `Assert` then panics
calling `reflect.Value.Type` on that marker instead of returning the zero
value; the slice shape of the same situation does produce the zero (nil)
slice. -/
theorem C2_optional_zero_value :
    Validate [⟨"Debug", "bool", false, "", "optional"⟩] (fun _ => "") =
      .ok ⟨[], [], [("Debug", ⟨.invalidValue, .bool⟩)]⟩ ∧
    Assert [⟨"Debug", "bool", false, "", "optional"⟩] (fun _ => "") =
      .panicked "reflect: call of reflect.Value.Type on zero Value" ∧
    Assert [⟨"Hosts", "", true, "string", "optional"⟩] (fun _ => "") =
      .ok [("Hosts", .sliceV [])] := by decide

/-- C3: an optional field with a default clause and an empty environment
value has the default substituted and subjected to the allowed-values check
and coercion; when the default fails either check the run aborts
(`Except.error`, the Go panic), never producing a runtime Invalid entry. -/
theorem C3_default_failure_is_fatal {f : Field} {env : GoEnvLookup} {nm : String}
    (hn : resolvedEnvName f = .ok nm) (he : env nm = "")
    (hopt : isOptional f.tag = true) (hdef : hasDefault f.tag = true) :
    (∀ vs, getValues f.tag = .ok (some vs) →
        inList (getDefault f.tag) vs = false →
        fieldOutcomeV f env =
          .error ("Default value " ++ getDefault f.tag ++ " for field " ++ f.name ++
                  " is not in allowed values")) ∧
    (f.isSlice = false → getValues f.tag = .ok none →
        ∀ v e, parseVariable f.name f.typeName (getDefault f.tag) = .ok (v, some e) →
        fieldOutcomeV f env =
          .error ("Default value " ++ getDefault f.tag ++ " for field " ++ f.name ++
                  " failed coercion")) ∧
    (f.isSlice = false → ∀ vs, getValues f.tag = .ok (some vs) →
        inList (getDefault f.tag) vs = true →
        ∀ v e, parseVariable f.name f.typeName (getDefault f.tag) = .ok (v, some e) →
        fieldOutcomeV f env =
          .error ("Default value " ++ getDefault f.tag ++ " for field " ++ f.name ++
                  " failed coercion")) ∧
    (f.isSlice = true → getValues f.tag = .ok none →
        ∀ sep vs2 e, getSeparator f.tag = .ok sep →
        validateAndParseSlice f.name f.elemTypeName (getDefault f.tag) sep =
          .ok (vs2, some e) →
        fieldOutcomeV f env =
          .error ("Default value " ++ getDefault f.tag ++ " for field " ++ f.name ++
                  " failed coercion")) ∧
    (f.isSlice = true → ∀ vs, getValues f.tag = .ok (some vs) →
        inList (getDefault f.tag) vs = true →
        ∀ sep vs2 e, getSeparator f.tag = .ok sep →
        validateAndParseSlice f.name f.elemTypeName (getDefault f.tag) sep =
          .ok (vs2, some e) →
        fieldOutcomeV f env =
          .error ("Default value " ++ getDefault f.tag ++ " for field " ++ f.name ++
                  " failed coercion")) := by
  refine ⟨?_, ?_, ?_, ?_, ?_⟩
  · intro vs hv hmem
    unfold fieldOutcomeV
    rw [hn]
    simp only [Bind.bind, Except.bind]
    rw [he]
    simp [hopt, hdef, hv, hmem, Bind.bind, Except.bind, pure, Except.pure]
  · intro hsl hv v e hp
    unfold fieldOutcomeV
    rw [hn]
    simp only [Bind.bind, Except.bind]
    rw [he]
    simp [hopt, hdef, hv, hsl, hp, Bind.bind, Except.bind, pure, Except.pure]
  · intro hsl vs hv hmem v e hp
    unfold fieldOutcomeV
    rw [hn]
    simp only [Bind.bind, Except.bind]
    rw [he]
    simp [hopt, hdef, hv, hmem, hsl, hp, Bind.bind, Except.bind, pure, Except.pure]
  · intro hsl hv sep vs2 e hsep hp
    unfold fieldOutcomeV
    rw [hn]
    simp only [Bind.bind, Except.bind]
    rw [he]
    simp [hopt, hdef, hv, hsl, hsep, hp, Bind.bind, Except.bind, pure, Except.pure]
  · intro hsl vs hv hmem sep vs2 e hsep hp
    unfold fieldOutcomeV
    rw [hn]
    simp only [Bind.bind, Except.bind]
    rw [he]
    simp [hopt, hdef, hv, hmem, hsl, hsep, hp, Bind.bind, Except.bind, pure, Except.pure]

/-- C3 witness: a default outside the allowed set aborts with the message
shape the values tests assert, a default failing boolean coercion aborts,
and a slice default with one uncoercible element aborts — none is an
Invalid entry. -/
theorem C3_default_failure_is_fatal_witness :
    fieldOutcomeV ⟨"Port", "int", false, "",
        "optional,values=\x278000,8080,9000\x27,default=\x273000\x27"⟩ (fun _ => "") =
      .error "Default value 3000 for field Port is not in allowed values" ∧
    fieldOutcomeV ⟨"Debug", "bool", false, "", "optional,default=\x27maybe\x27"⟩
        (fun _ => "") =
      .error "Default value maybe for field Debug failed coercion" ∧
    fieldOutcomeV ⟨"Ports", "", true, "int", "optional,default=\x2780,x\x27"⟩
        (fun _ => "") =
      .error "Default value 80,x for field Ports failed coercion" :=
  ⟨(@C3_default_failure_is_fatal
      ⟨"Port", "int", false, "",
        "optional,values=\x278000,8080,9000\x27,default=\x273000\x27"⟩
      (fun _ => "") "PORT"
      (by decide) (by decide) (by decide) (by decide)).1
      ["8000", "8080", "9000"] (by decide) (by decide),
   (@C3_default_failure_is_fatal
      ⟨"Debug", "bool", false, "", "optional,default=\x27maybe\x27"⟩
      (fun _ => "") "DEBUG"
      (by decide) (by decide) (by decide) (by decide)).2.1
      (by decide) (by decide) (.bool false) "invalid boolean value: maybe" (by decide),
   (@C3_default_failure_is_fatal
      ⟨"Ports", "", true, "int", "optional,default=\x2780,x\x27"⟩
      (fun _ => "") "PORTS"
      (by decide) (by decide) (by decide) (by decide)).2.2.2.1
      (by decide) (by decide) " " [.int 0] "invalid slice: false"
      (by decide) (by decide)⟩

/-- C4 counterexample: a declaration with two `default` clauses is *not*
aborted — `hasDefault` still holds, `getDefault` silently yields the first
occurrence, and `Validate` proceeds normally, storing that first default. -/
theorem C4_counterexample :
    hasDefault "optional,default=\x27a\x27,default=\x27b\x27" = true ∧
    getDefault "optional,default=\x27a\x27,default=\x27b\x27" = "a" ∧
    Validate [⟨"Host", "string", false, "", "optional,default=\x27a\x27,default=\x27b\x27"⟩]
        (fun _ => "") = .ok ⟨[], [], [("Host", ⟨.scalar (.str "a"), .string⟩)]⟩ := by
  decide

/-- C4 (amended): a second occurrence of `separator`, `name` or `values`
aborts schema construction (the Go panic); a second `default` clause is not
detected — the first occurrence is silently used. -/
theorem C4_keyed_clause_duplicates (tag : String) :
    (2 ≤ (matchesSep separatorKey tag).length →
        getSeparator tag = .error "Too many separators in tag") ∧
    (2 ≤ (matchesQ nameKey tag).length →
        getName tag = .error "Too many name specifications in tag") ∧
    (2 ≤ (matchesQ valuesKey tag).length →
        getValues tag = .error "Too many values specifications in tag") ∧
    (∀ m ms, matchesQ defaultKey tag = m :: ms → getDefault tag = String.mk m) := by
  refine ⟨?_, ?_, ?_, ?_⟩
  · intro h2
    unfold getSeparator
    cases hm : matchesSep separatorKey tag with
    | nil => rw [hm] at h2; simp at h2
    | cons a t =>
      cases t with
      | nil => rw [hm] at h2; simp at h2
      | cons b t2 => rfl
  · intro h2
    unfold getName
    cases hm : matchesQ nameKey tag with
    | nil => rw [hm] at h2; simp at h2
    | cons a t =>
      cases t with
      | nil => rw [hm] at h2; simp at h2
      | cons b t2 => rfl
  · intro h2
    unfold getValues
    cases hm : matchesQ valuesKey tag with
    | nil => rw [hm] at h2; simp at h2
    | cons a t =>
      cases t with
      | nil => rw [hm] at h2; simp at h2
      | cons b t2 => rfl
  · intro m ms hm
    unfold getDefault
    rw [hm]
    rfl

/-- C4 witness: the three panicking duplicates at the tags the tag tests
use, and the silent first-occurrence resolution for `default`. -/
theorem C4_keyed_clause_duplicates_witness :
    getSeparator "separator=\x27,\x27,separator=\x27|\x27" =
      .error "Too many separators in tag" ∧
    getName "name=\x27FIRST\x27,name=\x27SECOND\x27" =
      .error "Too many name specifications in tag" ∧
    getValues "values=\x278000,8080\x27,values=\x279000,10000\x27" =
      .error "Too many values specifications in tag" ∧
    getDefault "default=\x27a\x27,default=\x27b\x27" = String.mk "a".data :=
  ⟨(C4_keyed_clause_duplicates _).1 (by decide),
   (C4_keyed_clause_duplicates _).2.1 (by decide),
   (C4_keyed_clause_duplicates _).2.2.1 (by decide),
   (C4_keyed_clause_duplicates _).2.2.2 "a".data ["b".data] (by decide)⟩

/-- C5 counterexample: with `name='db_url'` the lookup key is the
upper-cased `DB_URL`, not the custom name itself: under an environment
where exactly `db_url` is set, the field is still reported missing, and
with the upper-cased name in the label. -/
theorem C5_counterexample :
    resolvedEnvName ⟨"Debug", "bool", false, "", "name=\x27db_url\x27"⟩ = .ok "DB_URL" ∧
    Validate [⟨"Debug", "bool", false, "", "name=\x27db_url\x27"⟩]
        (fun n => if n = "db_url" then "true" else "") =
      .ok ⟨["Debug (DB_URL)"], [], []⟩ := by decide

/-- C5 (amended): the resolved lookup key is the *upper-cased* custom name
when a `name='...'` clause is present, else the upper-cased declared
identifier; a required field with no environment value under that key is
reported missing labeled `Field (KEY)`. -/
theorem C5_resolved_name_upper {f : Field} {n : String}
    (h : getName f.tag = .ok n) :
    resolvedEnvName f = .ok (goToUpper (if n = "" then f.name else n)) ∧
    (∀ (fields : List Field) (env : GoEnvLookup) (r : ValidateResult),
        f ∈ fields → isOptional f.tag = false →
        env (goToUpper (if n = "" then f.name else n)) = "" →
        Validate fields env = .ok r →
        (f.name ++ " (" ++ goToUpper (if n = "" then f.name else n) ++ ")") ∈
          r.missing) := by
  have hn : resolvedEnvName f = .ok (goToUpper (if n = "" then f.name else n)) := by
    unfold resolvedEnvName getEnvVarNameFromField
    rw [h]
    rfl
  refine ⟨hn, ?_⟩
  intro fields env r hf hopt he hv
  exact mem_missing_of_fieldOutcome hv hf (fieldOutcome_missing hn he hopt)

/-- C5 witness: an upper-case custom name behaves as declared, and a
required field with that name and no value lands in missing with the
resolved label. -/
theorem C5_resolved_name_upper_witness :
    ("ServerPort" ++ " (" ++ goToUpper (if "SERVER_PORT" = "" then "ServerPort"
        else "SERVER_PORT") ++ ")") ∈
      (ValidateResult.mk ["ServerPort (SERVER_PORT)"] [] []).missing :=
  (@C5_resolved_name_upper
      ⟨"ServerPort", "int", false, "", "required,name=\x27SERVER_PORT\x27"⟩
      "SERVER_PORT" (by decide)).2
    [⟨"ServerPort", "int", false, "", "required,name=\x27SERVER_PORT\x27"⟩]
    (fun _ => "") ⟨["ServerPort (SERVER_PORT)"], [], []⟩
    (List.mem_singleton.mpr rfl) (by decide) (by decide) (by decide)

/-- C6 counterexample: `::ffff:192.168.1.1` is an IPv6-syntax literal — the
dispatch sends it to the IPv6 grammar — yet ipv4 coercion accepts it and
returns it unchanged, because `To4` is non-nil on IPv4-mapped addresses. -/
theorem C6_counterexample :
    firstSpecial "::ffff:192.168.1.1".data = some ':' ∧
    ipv4Parser "::ffff:192.168.1.1" = ("::ffff:192.168.1.1", none) := by decide

/-- C6 (amended): ipv4 coercion succeeds exactly when `net.ParseIP` parses
the text and the 16-byte address is IPv4-in-IPv6 — so every well-formed
dotted quad (four octets, each 0–255, digits only, no leading zero) is
accepted unchanged; octet counts other than 4, octets out of range,
leading zeros and ordinary IPv6 literals are rejected, but IPv4-mapped
IPv6 literals are accepted (an IPv6 group of more than four hex digits,
as in `::0ffff:1.2.3.4`, is a parse error, so only the canonical mapped
form gets through). -/
theorem C6_ipv4_coercion :
    (∀ w x y z : String,
        octetOk w.data = true → octetOk x.data = true →
        octetOk y.data = true → octetOk z.data = true →
        ipv4Parser (w ++ "." ++ x ++ "." ++ y ++ "." ++ z) =
          (w ++ "." ++ x ++ "." ++ y ++ "." ++ z, none)) ∧
    (∀ s : String, ipv4Validator s = none ↔
        ∃ bs, parseIP s = some bs ∧ isV4In6 bs = true) ∧
    (ipv4Validator "2001:0db8:85a3:0000:0000:8a2e:0370:7334").isSome = true ∧
    (ipv4Validator "::1").isSome = true ∧
    (ipv4Validator "192.168.1.1.1").isSome = true ∧
    (ipv4Validator "192.168.1").isSome = true ∧
    (ipv4Validator "192.168.1.256").isSome = true ∧
    (ipv4Validator "192.168.01.1").isSome = true ∧
    (ipv4Validator "::0ffff:1.2.3.4").isSome = true ∧
    ipv4Validator "::ffff:192.168.1.1" = none := by
  refine ⟨?_, ?_, by decide, by decide, by decide, by decide, by decide, by decide,
    by decide, by decide⟩
  · intro w x y z hw hx hy hz
    set s := w ++ "." ++ x ++ "." ++ y ++ "." ++ z with hs
    have hdata : s.data =
        w.data ++ '.' :: (x.data ++ '.' :: (y.data ++ '.' :: z.data)) := by
      simp [hs, String.data_append]
    have hsplit : goSplit s "." = [w, x, y, z] :=
      goSplit_quad w x y z (octetOk_no_dot hw) (octetOk_no_dot hx)
        (octetOk_no_dot hy) (octetOk_no_dot hz)
    have hv4 : parseIPv4 s = some [digitsToNat w.data 0, digitsToNat x.data 0,
        digitsToNat y.data 0, digitsToNat z.data 0] := by
      unfold parseIPv4
      rw [hsplit]
      simp [hw, hx, hy, hz]
    have hfs : firstSpecial s.data = some '.' := by
      rw [hdata]
      exact firstSpecial_digits_dot (octetOk_digits hw)
    have hip : parseIP s = some (v4InV6 [digitsToNat w.data 0, digitsToNat x.data 0,
        digitsToNat y.data 0, digitsToNat z.data 0]) := by
      unfold parseIP
      rw [hfs, hv4]
      rfl
    have hval : ipv4Validator s = none := by
      unfold ipv4Validator
      rw [hip]
      rfl
    unfold ipv4Parser
    rw [hval]
  · intro s
    unfold ipv4Validator
    cases hip : parseIP s with
    | none => simp
    | some ip =>
      cases hi : isV4In6 ip with
      | false => simp [hi]
      | true => simp [hi]

/-- C6 witness: the dotted-quad family at a concrete quad. -/
theorem C6_ipv4_coercion_witness :
    ipv4Parser ("192" ++ "." ++ "168" ++ "." ++ "1" ++ "." ++ "1") =
      ("192" ++ "." ++ "168" ++ "." ++ "1" ++ "." ++ "1", none) ∧
    "192" ++ "." ++ "168" ++ "." ++ "1" ++ "." ++ "1" = "192.168.1.1" :=
  ⟨C6_ipv4_coercion.1 "192" "168" "1" "1" (by decide) (by decide) (by decide)
      (by decide),
   by decide⟩

/-- C7 counterexample: an input with leading whitespace around a valid URL
is accepted — the validator trims before parsing and the parser returns
the original, untrimmed input. -/
theorem C7_counterexample :
    trimSpace " http://example.com" = "http://example.com" ∧
    urlParser " http://example.com" = (" http://example.com", none) := by decide

/-- C7 (amended): url coercion trims leading and trailing whitespace first,
rejects an empty or whitespace-only input, and otherwise succeeds exactly
when the trimmed text parses as a request-target URI; a scheme is optional
in that a bare `host:port` is accepted (as `scheme:opaque`), while a bare
`host` or `host/path` without scheme or port is rejected (and inside an
IPv6 zone a percent-escape of a host-forbidden byte such as `%2f` is a
parse error, while an ordinary zone name gets through). -/
theorem C7_url_coercion :
    (∀ s, trimSpace s = "" → urlValidator s = .error "empty URL") ∧
    (∀ s u, urlValidator s = .ok u ↔
        (trimSpace s ≠ "" ∧ parseURL (trimSpace s) = .ok u)) ∧
    (∀ s, (urlValidator s).isOk = true → urlParser s = (s, none)) ∧
    (urlValidator "example.com:8080").isOk = true ∧
    (urlValidator "example.com").isOk = false ∧
    (urlValidator "example.com/path").isOk = false ∧
    (urlValidator "http://example.com").isOk = true ∧
    (urlValidator "http://[::1%25%2f]/").isOk = false ∧
    (urlValidator "http://[::1%25eth0]/").isOk = true ∧
    (urlValidator "   ").isOk = false := by
  refine ⟨?_, ?_, ?_, by decide, by decide, by decide, by decide, by decide,
    by decide, by decide⟩
  · intro s h
    simp [urlValidator, h]
  · intro s u
    unfold urlValidator
    by_cases h : trimSpace s = ""
    · simp [h]
    · cases hp : parseURL (trimSpace s) with
      | error e => simp [h, hp]
      | ok u2 => simp [h, hp]
  · intro s h
    unfold urlParser
    cases huv : urlValidator s with
    | error e => rw [huv] at h; simp [Except.isOk, Except.toBool] at h
    | ok u => rfl

/-- C7 witness: the empty-after-trim rejection and success returning the
input unchanged, at concrete inputs. -/
theorem C7_url_coercion_witness :
    urlValidator "   " = .error "empty URL" ∧
    urlParser "http://example.com" = ("http://example.com", none) :=
  ⟨C7_url_coercion.1 "   " (by decide),
   C7_url_coercion.2.2.1 "http://example.com" (by decide)⟩

/-- C8: a slice field's non-empty raw value is split on every occurrence of
the declared separator, each piece coerced independently (the stored list
is the pointwise parse of the split); the field is Valid exactly when every
piece coerces, a failing element makes the whole field Invalid, and then
nothing is stored in the environment map and `Assert` returns only the
failure — no partial slice reaches the binder or the instance. -/
theorem C8_slice_all_or_nothing {f : Field} {env : GoEnvLookup}
    {nm raw sep : String} {vs : List GoValue} {err : Option String}
    (hslice : f.isSlice = true)
    (hn : resolvedEnvName f = .ok nm) (he : env nm = raw) (hraw : raw ≠ "")
    (hsep : getSeparator f.tag = .ok sep)
    (hp : validateAndParseSlice f.name f.elemTypeName raw sep = .ok (vs, err)) :
    List.Forall₂ (fun p pv => ∃ e2,
        parseVariable f.name f.elemTypeName p = .ok (pv, e2)) (goSplit raw sep) vs ∧
    (err = none ↔ ∀ p ∈ goSplit raw sep,
        ∃ pv, parseVariable f.name f.elemTypeName p = .ok (pv, none)) ∧
    (err = none → fieldOutcome f env = .ok (.store ⟨.sliceV vs, .slice⟩)) ∧
    (∀ e, err = some e →
        fieldOutcome f env = .ok (.invalid (f.name ++ " (" ++ nm ++ ")") raw) ∧
        Validate [f] env = .ok ⟨[], [(f.name ++ " (" ++ nm ++ ")", raw)], []⟩ ∧
        Assert [f] env = .failed [] [(f.name ++ " (" ++ nm ++ ")", raw)]) := by
  have hout := fieldOutcome_slice_eq hslice hn he hraw hsep hp
  unfold validateAndParseSlice at hp
  cases hres : (goSplit raw sep).mapM
      (fun slice => parseVariable f.name f.elemTypeName slice) with
  | error e =>
    rw [hres] at hp
    simp [Bind.bind, Except.bind] at hp
  | ok results =>
    rw [hres] at hp
    simp only [Bind.bind, Except.bind] at hp
    have hf2 := mapM_ok_forall₂ hres
    have hiff := all_isNone_iff hf2
    have hvs : vs = results.map (·.1) ∧
        err = (if !results.all (fun r => r.2.isNone) then
          some "invalid slice: false" else none) := by
      by_cases hall : results.all (fun r => r.2.isNone) = true
      · simp [hall] at hp ⊢
        exact ⟨hp.1.symm, hp.2.symm⟩
      · have hall2 : results.all (fun r => r.2.isNone) = false := by
          simpa [Bool.not_eq_true] using hall
        rw [hall2] at hp
        simp only [hall2, Bool.not_false, if_true] at hp ⊢
        simp at hp
        exact ⟨hp.1.symm, hp.2.symm⟩
    obtain ⟨hvs1, hvs2⟩ := hvs
    refine ⟨?_, ?_, ?_, ?_⟩
    · rw [hvs1]
      rw [List.forall₂_map_right_iff]
      exact hf2.imp (fun {a b} hab => ⟨b.2, by rw [hab]⟩)
    · constructor
      · intro hnone
        apply hiff.mp
        by_contra hall
        simp only [Bool.not_eq_true] at hall
        rw [hall] at hvs2
        simp at hvs2
        rw [hvs2] at hnone
        exact Option.some_ne_none _ hnone
      · intro hall
        have := hiff.mpr hall
        rw [this] at hvs2
        simpa using hvs2
    · intro hnone
      rw [hnone] at hout
      simpa using hout
    · intro e he2
      rw [he2] at hout
      simp at hout
      exact ⟨hout, (single_field_invalid hout).1, (single_field_invalid hout).2⟩

/-- C8 witness: `"80|443|8080"` on `"|"` yields the full integer list, and
one corrupted element (`"80|x|8080"`) makes the whole field Invalid, with
no entry stored and `Assert` failing without an instance. -/
theorem C8_slice_all_or_nothing_witness :
    fieldOutcome ⟨"Ports", "", true, "int", "optional,separator=\x27|\x27"⟩
        (fun n => if n = "PORTS" then "80|443|8080" else "") =
      .ok (.store ⟨.sliceV [.int 80, .int 443, .int 8080], .slice⟩) ∧
    Assert [⟨"Ports", "", true, "int", "optional,separator=\x27|\x27"⟩]
        (fun n => if n = "PORTS" then "80|x|8080" else "") =
      .failed [] [("Ports" ++ " (" ++ "PORTS" ++ ")", "80|x|8080")] :=
  ⟨(@C8_slice_all_or_nothing
      ⟨"Ports", "", true, "int", "optional,separator=\x27|\x27"⟩
      (fun n => if n = "PORTS" then "80|443|8080" else "")
      "PORTS" "80|443|8080" "|"
      [.int 80, .int 443, .int 8080] none
      (by decide) (by decide) (by decide) (by decide) (by decide)
      (by decide)).2.2.1 rfl,
   ((@C8_slice_all_or_nothing
      ⟨"Ports", "", true, "int", "optional,separator=\x27|\x27"⟩
      (fun n => if n = "PORTS" then "80|x|8080" else "")
      "PORTS" "80|x|8080" "|"
      [.int 80, .int 0, .int 8080] (some "invalid slice: false")
      (by decide) (by decide) (by decide) (by decide) (by decide)
      (by decide)).2.2.2 "invalid slice: false" rfl).2.2⟩

/-- C9: boolean coercion succeeds exactly for the six case-sensitive,
untrimmed literals — `true`, `yes`, `1` map to logical true, `false`,
`no`, `0` to false — and every other string fails. -/
theorem C9_bool_literals (s : String) :
    ((boolParser s).2 = none ↔
      s = "true" ∨ s = "false" ∨ s = "yes" ∨ s = "no" ∨ s = "1" ∨ s = "0") ∧
    ((boolParser s).1 = true ↔ s = "true" ∨ s = "yes" ∨ s = "1") := by
  simp [boolParser, boolValidator, inList]
  constructor
  · constructor
    · intro h
      tauto
    · intro h
      tauto
  · constructor
    · intro h
      tauto
    · intro h
      tauto

/-- C10: a field with an empty (or absent, which reads as empty)
declaration tag is required: with no environment value under its
upper-cased identifier it is reported in the missing list. -/
theorem C10_untagged_field_required {fields : List Field} {env : GoEnvLookup}
    {r : ValidateResult} {f : Field}
    (hf : f ∈ fields) (ht : f.tag = "")
    (he : env (goToUpper f.name) = "")
    (hv : Validate fields env = .ok r) :
    (f.name ++ " (" ++ goToUpper f.name ++ ")") ∈ r.missing := by
  refine mem_missing_of_fieldOutcome hv hf (fieldOutcome_missing ?_ he ?_)
  · unfold resolvedEnvName getEnvVarNameFromField
    rw [ht]
    rfl
  · rw [ht]
    rfl

/-- C10 witness: one untagged field, empty environment. -/
theorem C10_untagged_field_required_witness :
    ("Host" ++ " (" ++ goToUpper "Host" ++ ")") ∈
      (ValidateResult.mk ["Host (HOST)"] [] []).missing :=
  @C10_untagged_field_required
    [⟨"Host", "string", false, "", ""⟩] (fun _ => "")
    ⟨["Host (HOST)"], [], []⟩ ⟨"Host", "string", false, "", ""⟩
    (List.mem_singleton.mpr rfl) rfl (by decide) (by decide)

end GoEnv
